import Mathlib

/-!
Verification of the `@joshdb/core` key/value storage layer (Josh store handle +
in-memory `MapProvider`) against its natural-language specification.

The development is a shallow embedding of the TypeScript source:

* JavaScript values stored by the provider are modelled by the inductive
  `JSValue` (numbers as rationals; JavaScript reference identity of arrays and
  objects is modelled conservatively, see `jsStrictEq`).
* The lodash path utilities `get` / `set` / `has` / `unset` used by
  `MapProvider` are modelled by `getPath` / `setPath` / `unsetPath` over parsed
  dotted/bracketed paths (`parsePath`).
* The provider's `Map` cache is modelled as an insertion-ordered association
  list, exactly as a JavaScript `Map` with string keys behaves.
* Asynchronous methods are modelled as pure functions: the source awaits every
  provider call and the in-memory provider is internally synchronous.
-/

set_option maxHeartbeats 1000000

/-- A JavaScript value as storable by the provider: `null`, booleans, numbers
(modelled as rationals), strings, arrays and plain objects (insertion-ordered
string-keyed field lists). JavaScript `undefined` does not occur as a stored
value in the source and is modelled by `Option.none` at the lodash layer. -/
inductive JSValue : Type where
  | vnull : JSValue
  | vbool (b : Bool) : JSValue
  | vnum (q : ℚ) : JSValue
  | vstr (s : String) : JSValue
  | varr (elems : List JSValue) : JSValue
  | vobj (fields : List (String × JSValue)) : JSValue
deriving Repr

/-- JavaScript truthiness: `null`, `false`, `0` and `""` are falsy; every
array and object is truthy. (`NaN` does not arise in the rational model.) -/
def truthy : JSValue → Bool
  | JSValue.vnull => false
  | JSValue.vbool b => b
  | JSValue.vnum q => q != 0
  | JSValue.vstr s => !s.isEmpty
  | JSValue.varr _ => true
  | JSValue.vobj _ => true

/-- JavaScript strict equality `===`. Primitives compare by value. Arrays and
objects compare by reference in JavaScript; in every situation this
development evaluates, the two operands are structurally built values held by
distinct references, so `===` on them is `false`. -/
def jsStrictEq : JSValue → JSValue → Bool
  | JSValue.vnull, JSValue.vnull => true
  | JSValue.vbool a, JSValue.vbool b => a == b
  | JSValue.vnum a, JSValue.vnum b => a == b
  | JSValue.vstr a, JSValue.vstr b => a == b
  | _, _ => false

/-- The lodash `isPlainObject` check used by `MapProvider.delete`: true only
for plain objects (arrays and primitives are not plain objects). -/
def isPlainObject : JSValue → Bool
  | JSValue.vobj _ => true
  | _ => false

/-- The `Array.isArray` check used by `push` / `remove` / `includes`. -/
def isArray : JSValue → Bool
  | JSValue.varr _ => true
  | _ => false

/-! ### Splitting character lists

`String.split('.')` from JavaScript (used by `getKeyAndPath`) and the
dot/bracket path grammar of lodash are modelled on character lists. -/

/-- Split a character list at every occurrence of `sep`, keeping empty
segments, exactly like JavaScript `String.prototype.split` with a one-character
separator: `"a..b".split('.')` is `["a", "", "b"]` and `"".split('.')` is
`[""]`. -/
def splitOnChar (sep : Char) : List Char → List (List Char)
  | [] => [[]]
  | c :: rest =>
    if c = sep then [] :: splitOnChar sep rest
    else
      match splitOnChar sep rest with
      | [] => [[c]]
      | g :: gs => (c :: g) :: gs

/-- Join character-list segments with a dot, the model of
`Array.prototype.join('.')`. -/
def joinDots : List (List Char) → List Char
  | [] => []
  | [g] => g
  | g :: g2 :: gs => g ++ '.' :: joinDots (g2 :: gs)

/-! ### Lodash path addressing

`parsePath` models lodash `stringToPath` for the dot/bracket paths the source
uses (`"a.b.c"`, `"c[4].a[1]"`, `"0"`). Quoted bracket keys and empty segments
produced by consecutive dots are outside the modelled grammar (no call site in
the source or in this development produces them). -/

/-- Break one dot-separated chunk at brackets: `"c[4]"` yields the segments
`"c"` and `"4"`. -/
def bracketSegs (l : List Char) : List (List Char) :=
  (((splitOnChar '[' l).map (splitOnChar ']')).flatten).filter (fun g => !g.isEmpty)

/-- Parse a lodash path string into its list of segments. -/
def parsePath (s : String) : List String :=
  (((splitOnChar '.' s.toList).map bracketSegs).flatten).map (fun g => String.mk g)

/-- Look up a key in an insertion-ordered string-keyed field list; the model
both of plain-object field access and of `Map.prototype.get`. -/
def lookupField : List (String × JSValue) → String → Option JSValue
  | [], _ => none
  | (k, v) :: rest, key => if k = key then some v else lookupField rest key

/-- Write a key in an insertion-ordered field list: overwriting keeps the
original insertion position, a new key is appended — the behaviour of both
plain-object assignment and `Map.prototype.set`. -/
def setField : List (String × JSValue) → String → JSValue → List (String × JSValue)
  | [], key, v => [(key, v)]
  | (k, w) :: rest, key, v =>
    if k = key then (k, v) :: rest else (k, w) :: setField rest key v

/-- Remove a key from a field list; the model of `delete obj[k]` and of
`Map.prototype.delete`. -/
def removeField : List (String × JSValue) → String → List (String × JSValue)
  | [], _ => []
  | (k, w) :: rest, key =>
    if k = key then rest else (k, w) :: removeField rest key

/-- Resolve one path segment against a value: field access on objects, index
access on arrays (via the numeric form of the segment), nothing on
primitives — lodash `get` for a single step. -/
def getSeg : JSValue → String → Option JSValue
  | JSValue.vobj fields, seg => lookupField fields seg
  | JSValue.varr elems, seg =>
    match seg.toNat? with
    | some i => elems.get? i
    | none => none
  | _, _ => none

/-- Lodash `get`: walk the parsed path; `none` models `undefined` (the path
does not resolve). -/
def getPath : JSValue → List String → Option JSValue
  | v, [] => some v
  | v, seg :: rest =>
    match getSeg v seg with
    | some child => getPath child rest
    | none => none

/-- Whether a path segment addresses an array index; lodash uses this to pick
the intermediate container kind it creates while setting. -/
def isIndexSeg (seg : String) : Bool := seg.toNat?.isSome

/-- Write an array element at an index, extending the array when the index is
past the end (JavaScript leaves holes, read back as `undefined`; the model
pads with `null` — no call site in this development reads such a hole). -/
def listSetAt (l : List JSValue) (i : Nat) (v : JSValue) : List JSValue :=
  if i < l.length then l.set i v
  else l ++ List.replicate (i - l.length) JSValue.vnull ++ [v]

/-- Assign one segment on a container. On a primitive the value is returned
unchanged, exactly as lodash `baseSet` returns a non-object root unmodified.
(A non-index segment on an array would set a named property invisible to
array reads; no call site produces that case.) -/
def assignSeg (v : JSValue) (seg : String) (nv : JSValue) : JSValue :=
  match v with
  | JSValue.vobj fields => JSValue.vobj (setField fields seg nv)
  | JSValue.varr elems =>
    match seg.toNat? with
    | some i => JSValue.varr (listSetAt elems i nv)
    | none => JSValue.varr elems
  | other => other

/-- Lodash `set` over a parsed path: walks the path, replacing a missing or
primitive intermediate with a fresh array (when the next segment is an index)
or a fresh object, and assigns at the final segment. `lodash.set(null, p, v)`
returns `null` unchanged, which this model reproduces through `assignSeg`. -/
def setPath : JSValue → List String → JSValue → JSValue
  | v, [], _ => v
  | v, [seg], nv => assignSeg v seg nv
  | v, seg :: seg2 :: rest, nv =>
    let child :=
      match getSeg v seg with
      | some c => if isPlainObject c || isArray c then c
                  else if isIndexSeg seg2 then JSValue.varr [] else JSValue.vobj []
      | none => if isIndexSeg seg2 then JSValue.varr [] else JSValue.vobj []
    assignSeg v seg (setPath child (seg2 :: rest) nv)

/-- Lodash `unset` over a parsed path: removes the field (or nulls out the
array slot — JavaScript leaves a hole) at the final segment; a path that does
not resolve leaves the value unchanged. -/
def unsetPath : JSValue → List String → JSValue
  | v, [] => v
  | v, [seg] =>
    match v with
    | JSValue.vobj fields => JSValue.vobj (removeField fields seg)
    | JSValue.varr elems =>
      match seg.toNat? with
      | some i => JSValue.varr (if i < elems.length then elems.set i JSValue.vnull else elems)
      | none => JSValue.varr elems
    | other => other
  | v, seg :: seg2 :: rest =>
    match getSeg v seg with
    | some c => assignSeg v seg (unsetPath c (seg2 :: rest))
    | none => v

/-! ### The in-memory reference provider (`MapProvider`)

`MapProvider` holds `private cache = new Map<string, S>()` and
`private ids = 0`. The cache is the association list `cache`; `ids` is the
auto-increment counter. -/

/-- The mutable state of one `MapProvider` instance. -/
structure MapProviderState where
  cache : List (String × JSValue)
  ids : Nat
deriving Repr

/-- The state of a freshly constructed provider: empty cache, counter `0`. -/
def MapProviderState.initial : MapProviderState := { cache := [], ids := 0 }

namespace MapProvider

/-- Source `MapProvider.get`:
`path.length ? get(this.cache.get(key), path) ?? null : this.cache.get(key) ?? null`.
A missing key or unresolved path yields `null`. -/
def get (st : MapProviderState) (key path : String) : JSValue :=
  if path.isEmpty then (lookupField st.cache key).getD JSValue.vnull
  else
    match lookupField st.cache key with
    | some v => (getPath v (parsePath path)).getD JSValue.vnull
    | none => JSValue.vnull

/-- Source `MapProvider.has`:
`path.length ? has(this.cache.get(key), path) : this.cache.has(key)`. -/
def has (st : MapProviderState) (key path : String) : Bool :=
  if path.isEmpty then (lookupField st.cache key).isSome
  else
    match lookupField st.cache key with
    | some v => (getPath v (parsePath path)).isSome
    | none => false

/-- Source `MapProvider.set`: with an empty path the entry is replaced whole;
with a path, the current whole value (`this.get(key, '')`, hence `null` for a
missing key) is passed through lodash `set` and the result stored. -/
def set (st : MapProviderState) (key path : String) (value : JSValue) : MapProviderState :=
  if path.isEmpty then { st with cache := setField st.cache key value }
  else
    let val := get st key ""
    { st with cache := setField st.cache key (setPath val (parsePath path) value) }

/-- Source `MapProvider.delete`: with an empty path the entry is removed; with
a path, only when the stored whole value is a truthy plain object is lodash
`unset` applied and the result stored back. -/
def delete (st : MapProviderState) (key path : String) : MapProviderState :=
  if path.isEmpty then { st with cache := removeField st.cache key }
  else
    let value := get st key ""
    if truthy value && isPlainObject value then
      { st with cache := setField st.cache key (unsetPath value (parsePath path)) }
    else st

/-- Source `MapProvider.clear`: `this.cache.clear()`; the `ids` counter is not
touched. -/
def clear (st : MapProviderState) : MapProviderState := { st with cache := [] }

/-- Source `MapProvider.destroy`: also only `this.cache.clear()`. -/
def destroy (st : MapProviderState) : MapProviderState := { st with cache := [] }

/-- Source `MapProvider.autoId`: `this.ids++; return this.ids.toString();` —
returns the decimal string of the incremented counter together with the
updated state. -/
def autoId (st : MapProviderState) : String × MapProviderState :=
  (Nat.repr (st.ids + 1), { st with ids := st.ids + 1 })

/-- The negation `!array.find(v => v === value)` from `MapProvider.push`:
`Array.prototype.find` returns the first matching element or `undefined`, so
the negation is true when no element matches, and also when the first
matching element is itself falsy. -/
def jsNotFound (xs : List JSValue) (value : JSValue) : Bool :=
  match xs.find? (fun v => jsStrictEq v value) with
  | none => true
  | some e => !truthy e

/-- Source `MapProvider.push`: reads the value at `(key, path)` and appends
only under the source's guard
`Array.isArray(val) && !allowDupes && !val.find(v => v === value)`. -/
def push (st : MapProviderState) (key path : String) (value : JSValue)
    (allowDupes : Bool) : MapProviderState :=
  match get st key path with
  | JSValue.varr xs =>
    if !allowDupes && jsNotFound xs value then
      set st key path (JSValue.varr (xs ++ [value]))
    else st
  | _ => st

/-- The `valueOrFn` union parameter of `MapProvider.remove`; the source
dispatches on `typeof valueOrFn === 'function'`. The async predicate is
modelled as a pure Boolean function (the loop awaits it before continuing). -/
inductive ValueOrFn where
  | value (v : JSValue) : ValueOrFn
  | fn (p : JSValue → Bool) : ValueOrFn

/-- Source `MapProvider.remove`: when the value at `(key, path)` is an array,
rebuilds it in order keeping, per the source's loop, exactly the elements the
predicate returns `true` for (`if (!found) continue; data.push(v)`), or the
elements not strictly equal to the literal value
(`if (v === valueOrFn) continue; data.push(v)`); otherwise a no-op. -/
def remove (st : MapProviderState) (key path : String) (vf : ValueOrFn) : MapProviderState :=
  match get st key path with
  | JSValue.varr xs =>
    let data := xs.filter (fun v =>
      match vf with
      | ValueOrFn.fn p => p v
      | ValueOrFn.value w => !jsStrictEq v w)
    set st key path (JSValue.varr data)
  | _ => st

/-- The scan loop of `MapProvider.findByFn` over the remaining entries; the
full state is carried because the loop body calls `this.get(key, path)`. -/
def findByFnGo (st : MapProviderState) (p : JSValue → Bool) (path : Option String) :
    List (String × JSValue) → Option (String × JSValue)
  | [] => none
  | (k, v) :: rest =>
    match path with
    | some pa =>
      if !pa.isEmpty then
        let val := get st k pa
        if !truthy val then findByFnGo st p path rest
        else if p val then some (k, v)
        else findByFnGo st p path rest
      else if p v then some (k, v) else findByFnGo st p path rest
    | none => if p v then some (k, v) else findByFnGo st p path rest

/-- Source `MapProvider.findByFn`: scans `cache.entries()` in insertion
order. With a non-empty path it evaluates the predicate on
`this.get(key, path)` but only after the guard `if (!val) continue;`; without
a path the predicate sees the whole value. The first hit is returned as the
single-entry mapping `{[key]: value}`, modelled as the key/value pair. -/
def findByFn (st : MapProviderState) (p : JSValue → Bool) (path : Option String) :
    Option (String × JSValue) :=
  findByFnGo st p path st.cache

/-- The scan loop of `MapProvider.findByValue` over the remaining entries. -/
def findByValueGo (st : MapProviderState) (path : String) (value : JSValue) :
    List (String × JSValue) → Option (String × JSValue)
  | [] => none
  | (k, v) :: rest =>
    let g := get st k path
    if !truthy g then findByValueGo st path value rest
    else if !jsStrictEq g value then findByValueGo st path value rest
    else some (k, v)

/-- Source `MapProvider.findByValue`: same scan as `findByFn`, with the guard
`if (!v) continue;` followed by the strict-equality test `if (v !== value)
continue;`. -/
def findByValue (st : MapProviderState) (path : String) (value : JSValue) :
    Option (String × JSValue) :=
  findByValueGo st path value st.cache

end MapProvider

/-- Truncation toward zero on rationals, the rounding JavaScript's `%`
operator uses. -/
def ratTrunc (q : ℚ) : ℤ := if 0 ≤ q then ⌊q⌋ else ⌈q⌉

/-- The JavaScript remainder `a % b` (sign of the dividend). `b = 0` gives
`NaN` in JavaScript; rational division by zero gives `0` here, a corner no
theorem in this development evaluates. -/
def jsMod (a b : ℚ) : ℚ := a - b * (ratTrunc (a / b) : ℚ)

/-- The `switch (operation)` of `MapProvider.math`, applied to a numeric
value. `Math.pow` on rationals and `Math.random()` are not definable in the
rational model, so the power function and the sampled random number are
explicit parameters. An operation matching no case leaves the value
unchanged. -/
def applyMathOp (op : String) (value operand : ℚ) (pow : ℚ → ℚ → ℚ) (rnd : ℚ) : ℚ :=
  if op = "add" ∨ op = "addition" ∨ op = "+" then value + operand
  else if op = "sub" ∨ op = "subtract" ∨ op = "-" then value - operand
  else if op = "multi" ∨ op = "multiply" ∨ op = "*" then value * operand
  else if op = "div" ∨ op = "divide" ∨ op = "/" then value / operand
  else if op = "exp" ∨ op = "exponent" ∨ op = "^" then pow value operand
  else if op = "mod" ∨ op = "modulo" ∨ op = "%" then jsMod value operand
  else if op = "rand" ∨ op = "random" then ((⌊rnd * (⌊operand⌋ : ℚ)⌋ : ℤ) : ℚ)
  else value

namespace MapProvider

/-- Source `MapProvider.math`: reads the value at `(key, path)`, throws
`Value in "key.path" was not found.` under the guard `if (!value)` — that is,
whenever the value is falsy — and otherwise applies the operation and stores
the result. The source casts the value with `as number | null`; on a truthy
non-number JavaScript would store a coerced engine artefact, which no theorem
in this development evaluates (the model stores the value unchanged there). -/
def math (pow : ℚ → ℚ → ℚ) (rnd : ℚ) (st : MapProviderState) (key path op : String)
    (operand : ℚ) : Except String MapProviderState :=
  let value := get st key path
  if !truthy value then
    Except.error ("Value in \"" ++ key ++ "." ++ path ++ "\" was not found.")
  else
    match value with
    | JSValue.vnum q =>
      Except.ok (set st key path (JSValue.vnum (applyMathOp op q operand pow rnd)))
    | other => Except.ok (set st key path other)

end MapProvider

/-! ### The current abstract provider's path splitter

`JoshProvider.getKeyAndPath` (the current, non-legacy abstract class) splits
`keyOrPath` on dots and rejoins every segment after the first:
`const [key, ...path] = keyOrPath.split('.'); return [key, path.join('.')];`. -/

namespace JoshProvider

/-- Source `JoshProvider.getKeyAndPath` (current abstract class, inherited by
`MapProvider`). -/
def getKeyAndPath (keyOrPath : String) : String × String :=
  match splitOnChar '.' keyOrPath.toList with
  | [] => ("", "")
  | k :: rest => (String.mk k, String.mk (joinDots rest))

end JoshProvider

/-! ### The store handle (`Josh`)

The handle's serializer/deserializer closures are modelled as explicit
function parameters; `autoEnsure` as an optional stored value. All theorems
are about the post-`init()` regime (the in-memory provider's `init` resolves
immediately and the readiness gate is then passed by every call). -/

namespace Josh

/-- Source `Josh.getKeyAndPath`, including its guard exactly as written:
`if (keyOrPath) throw new JoshError('KeyOrPath is null.');` — a truthy
(non-empty) string throws. -/
def getKeyAndPath (keyOrPath : String) : Except String (String × String) :=
  if !keyOrPath.isEmpty then Except.error "KeyOrPath is null."
  else
    match splitOnChar '.' keyOrPath.toList with
    | [] => Except.ok ("", "")
    | k :: rest => Except.ok (String.mk k, String.mk (joinDots rest))

/-- Source `Josh.has`: resolves the key/path and queries the provider inside
`try/catch`; any error is logged and degraded to `false`. -/
def has (st : MapProviderState) (keyOrPath : String) : Bool :=
  match getKeyAndPath keyOrPath with
  | Except.error _ => false
  | Except.ok (k, p) => MapProvider.has st k p

/-- Source `Josh.get`: resolves the key/path (outside any `try/catch`), then
`hasKey = await this.has(keyOrPath)`;
`value = hasKey ? provider.get(key, path) : this.autoEnsure ?? null`;
`deserialized = value ? deserializer(value, key, path) : null`;
`return deserialized ? (path.length ? lodashGet(deserialized, path) : value) : null`.
Note the empty-path branch returns `value` — the raw stored value — not the
deserialized one. -/
def get (deser : JSValue → JSValue) (autoEnsure : Option JSValue)
    (st : MapProviderState) (keyOrPath : String) : Except String JSValue :=
  match getKeyAndPath keyOrPath with
  | Except.error e => Except.error e
  | Except.ok (key, path) =>
    let hasKey := has st keyOrPath
    let value := if hasKey then MapProvider.get st key path else autoEnsure.getD JSValue.vnull
    let deserialized := if truthy value then deser value else JSValue.vnull
    Except.ok (if truthy deserialized then
        (if !path.isEmpty then (getPath deserialized (parsePath path)).getD JSValue.vnull
         else value)
      else JSValue.vnull)

end Josh

/-! ### The constructor's provider-conformance check

`Josh`'s constructor instantiates the supplied provider class and then checks
`initializedProvider.constructor.name !== 'JoshProvider'`. A JavaScript
instance's `constructor.name` is the name of the class it was constructed
from, so the check compares the concrete class's own name against the literal
string `'JoshProvider'`. Conformance in the spec's sense is ancestry: the
class (transitively) extends the abstract `JoshProvider`. -/

/-- A provider class as the constructor check can observe it: its own name
(`constructor.name` of its instances) and its prototype-chain ancestry. -/
structure ProviderClass where
  className : String
  ancestors : List String
deriving Repr, DecidableEq

/-- The reference in-memory provider: `class MapProvider extends JoshProvider`. -/
def MapProviderClass : ProviderClass :=
  { className := "MapProvider", ancestors := ["MapProvider", "JoshProvider"] }

/-- The Provider Contract conformance check the spec describes: a
structural/ancestry check, i.e. the class descends from `JoshProvider`. -/
def conformsToProviderContract (pc : ProviderClass) : Bool :=
  pc.ancestors.contains "JoshProvider"

/-- The constructor options relevant to the conformance claim. -/
structure JoshConstructorOptions where
  provider : Option ProviderClass
  name : String

/-- Source `Josh` constructor, lines 66-87: missing provider and missing name
throw first; then the instantiated provider is rejected unless
`constructor.name` equals the literal `'JoshProvider'`, with the message
`JoshProvider ivalid. <name> is not a valid provider.` (typo as in source). -/
def Josh.construct (options : JoshConstructorOptions) : Except String ProviderClass :=
  match options.provider with
  | none => Except.error "Provider option not found."
  | some pc =>
    if options.name.isEmpty then Except.error "Name option not found"
    else if pc.className ≠ "JoshProvider" then
      Except.error ("JoshProvider ivalid. " ++ pc.className ++ " is not a valid provider.")
    else Except.ok pc

/-! ### Method names for the dispatch claim

`Josh.find` / `filter` / `map` / `some` / `every` dispatch on the provider
instance by property name; the names below are transcribed from the source. -/

/-- Every method name the `MapProvider` instance exposes: its own public
methods plus `init` and `getKeyAndPath` inherited from the current abstract
`JoshProvider` base class. -/
def mapProviderMethodNames : List String :=
  ["has", "get", "getAll", "getMany", "random", "randomKey", "keys", "values",
   "count", "set", "setMany", "delete", "clear", "deleteMany", "push", "remove",
   "inc", "dec", "findByFn", "findByValue", "filterByFn", "filterByValue",
   "mapByFn", "mapByPath", "includes", "someByFn", "someByValue", "everyByFn",
   "everyByValue", "math", "autoId", "destroy", "init", "getKeyAndPath"]

/-- The provider method names `Josh.find`, `Josh.filter`, `Josh.map`,
`Josh.some` and `Josh.every` dispatch to (source lines 351, 377, 390, 424,
448). -/
def joshQueryDispatchNames : List String :=
  ["findByFunction", "filterByFunction", "mapByFunction", "someByFunction",
   "everyByFunction"]

/-- The names under which the reference provider actually implements those
five query operations. -/
def mapProviderQueryNames : List String :=
  ["findByFn", "filterByFn", "mapByFn", "someByFn", "everyByFn"]

/-- JavaScript property dispatch: a method call resolves only when the
receiver exposes the property; otherwise the property is `undefined` and the
call raises a `TypeError`. -/
def resolveMethod (implemented : List String) (name : String) : Option String :=
  if implemented.contains name then some name else none

/-! ### Decimal representation

`autoId` returns `this.ids.toString()`, modelled by `Nat.repr`. To reason
about the identifier sequence we relate `Nat.repr` to a fuel-free digit
function and a decoder, giving injectivity. -/

/-- The decimal digit list of a natural number, most significant digit
first (the fuel-free form of core's `Nat.toDigitsCore` at base 10). -/
def decDigits (n : Nat) : List Char :=
  if _h : n < 10 then [Nat.digitChar n]
  else decDigits (n / 10) ++ [Nat.digitChar (n % 10)]
decreasing_by exact Nat.div_lt_self (by omega) (by omega)

/-- Decode one decimal digit character. -/
def decodeDigit (c : Char) : Nat := c.toNat - 48

/-- Decode a decimal digit list back to the number it represents. -/
def decodeDigits (l : List Char) : Nat :=
  l.foldl (fun a c => 10 * a + decodeDigit c) 0

/-! ### Operation traces over one provider instance

For the auto-increment invariant, a provider lifetime is a list of
operations run in order from the freshly constructed state; `autoId` calls
produce the output identifiers. -/

/-- One provider operation of the kinds relevant to the identifier
invariant: `autoId` itself plus the entry-mutating operations (writes,
deletions, clears, array edits, destroy). -/
inductive ProviderOp where
  | opAutoId : ProviderOp
  | opSet (key path : String) (value : JSValue) : ProviderOp
  | opDelete (key path : String) : ProviderOp
  | opClear : ProviderOp
  | opPush (key path : String) (value : JSValue) (allowDupes : Bool) : ProviderOp
  | opRemove (key path : String) (vf : MapProvider.ValueOrFn) : ProviderOp
  | opDestroy : ProviderOp

/-- Run one operation; `autoId` also produces an output identifier. -/
def stepOp (st : MapProviderState) : ProviderOp → MapProviderState × Option String
  | ProviderOp.opAutoId => let r := MapProvider.autoId st; (r.2, some r.1)
  | ProviderOp.opSet k p v => (MapProvider.set st k p v, none)
  | ProviderOp.opDelete k p => (MapProvider.delete st k p, none)
  | ProviderOp.opClear => (MapProvider.clear st, none)
  | ProviderOp.opPush k p v d => (MapProvider.push st k p v d, none)
  | ProviderOp.opRemove k p vf => (MapProvider.remove st k p vf, none)
  | ProviderOp.opDestroy => (MapProvider.destroy st, none)

/-- Run a list of operations in order, collecting the identifiers returned
by the `autoId` calls. -/
def runOps (st : MapProviderState) : List ProviderOp → MapProviderState × List String
  | [] => (st, [])
  | op :: rest =>
    let r := stepOp st op
    let rs := runOps r.1 rest
    (rs.1, match r.2 with
      | some s => s :: rs.2
      | none => rs.2)

/-- The number of `autoId` calls in a trace. -/
def countAutoIds (ops : List ProviderOp) : Nat :=
  ops.countP (fun op => match op with
    | ProviderOp.opAutoId => true
    | _ => false)

/-! ### Match predicates for the find-scan claim -/

/-- Whether one cache entry passes `findByValue`'s loop body for a given
path and sought value: the value at the path must be truthy (the
`if (!v) continue` guard) and strictly equal to the sought value. -/
def entryMatchesByValue (st : MapProviderState) (path : String) (value : JSValue)
    (e : String × JSValue) : Bool :=
  truthy (MapProvider.get st e.1 path) && jsStrictEq (MapProvider.get st e.1 path) value

/-- Whether one cache entry passes `findByFn`'s loop body for a given
non-empty path: the value at the path must be truthy (the `if (!val)
continue` guard) and satisfy the predicate. -/
def entryMatchesByFn (st : MapProviderState) (p : JSValue → Bool) (pa : String)
    (e : String × JSValue) : Bool :=
  truthy (MapProvider.get st e.1 pa) && p (MapProvider.get st e.1 pa)

/-! ### Claim C1 -/

/-- Writing then reading a whole entry: `lookupField` after `setField` on the
same key yields the written value. -/
theorem lookupField_setField_self (cache : List (String × JSValue)) (key : String)
    (v : JSValue) : lookupField (setField cache key v) key = some v := by
  induction cache with
  | nil => simp [setField, lookupField]
  | cons e rest ih =>
    obtain ⟨k, w⟩ := e
    by_cases h : k = key
    · simp [setField, lookupField, h]
    · simp [setField, lookupField, h, ih]

/-- C1: for every key and every supported value shape (the whole inductive
`JSValue`, covering objects, arrays, numbers, strings, booleans, null and
nested composites), `set(key, "", v)` followed by `get(key, "")` on the
reference provider returns a value deep-equal (structurally equal) to `v`,
from any starting state. -/
theorem mapProvider_set_then_get_roundtrip (st : MapProviderState) (key : String)
    (v : JSValue) : MapProvider.get (MapProvider.set st key "" v) key "" = v := by
  simp [MapProvider.get, MapProvider.set, String.isEmpty, lookupField_setField_self]

/-! ### Claim C2 -/

/-- A non-empty string is not `isEmpty`. -/
theorem string_isEmpty_false (s : String) (h : s ≠ "") : s.isEmpty = false := by
  rw [Bool.eq_false_iff]
  exact fun hc => h ((String.isEmpty_iff s).mp hc)

/-- C2 (code evaluated at the failing input): for every deserializer, every
`autoEnsure` configuration, every provider state and every non-empty
`keyOrPath`, `Josh.get` throws `KeyOrPath is null.` — the guard of
`Josh.getKeyAndPath` is inverted (`if (keyOrPath) throw`), so the claimed
deserialize-then-extract pipeline is never reached. -/
theorem josh_get_throws_for_nonempty_keyOrPath (deser : JSValue → JSValue)
    (autoEnsure : Option JSValue) (st : MapProviderState) (keyOrPath : String)
    (h : keyOrPath ≠ "") :
    Josh.get deser autoEnsure st keyOrPath = Except.error "KeyOrPath is null." := by
  simp [Josh.get, Josh.getKeyAndPath, string_isEmpty_false keyOrPath h]

/-- Witness for C2 at the concrete key `"user"` with the identity
deserializer, no `autoEnsure` and the empty store. -/
theorem josh_get_throws_for_nonempty_keyOrPath_witness :
    Josh.get (fun v => v) none MapProviderState.initial "user" =
      Except.error "KeyOrPath is null." :=
  josh_get_throws_for_nonempty_keyOrPath (fun v => v) none MapProviderState.initial
    "user" (by decide)

/-! ### Claim C3 -/

/-- `splitOnChar` never returns the empty list of segments. -/
theorem splitOnChar_ne_nil (sep : Char) (l : List Char) : splitOnChar sep l ≠ [] := by
  induction l with
  | nil => simp [splitOnChar]
  | cons c rest ih =>
    by_cases h : c = sep
    · simp [splitOnChar, h]
    · simp only [splitOnChar, if_neg h]
      cases hs : splitOnChar sep rest with
      | nil => simp
      | cons g gs => simp

/-- Splitting a separator-free list yields that list as the one segment. -/
theorem splitOnChar_of_not_mem {sep : Char} {l : List Char} (h : sep ∉ l) :
    splitOnChar sep l = [l] := by
  induction l with
  | nil => rfl
  | cons c rest ih =>
    have hc : ¬c = sep := fun e => h (e ▸ List.mem_cons_self c rest)
    have hr : sep ∉ rest := fun hm => h (List.mem_cons_of_mem _ hm)
    simp [splitOnChar, if_neg hc, ih hr]

/-- Splitting at the first separator occurrence: the separator-free part
before it is the first segment. -/
theorem splitOnChar_append {sep : Char} {k : List Char} (r : List Char) (h : sep ∉ k) :
    splitOnChar sep (k ++ sep :: r) = k :: splitOnChar sep r := by
  induction k with
  | nil => simp [splitOnChar]
  | cons c k2 ih =>
    have hc : ¬c = sep := fun e => h (e ▸ List.mem_cons_self c k2)
    have hk : sep ∉ k2 := fun hm => h (List.mem_cons_of_mem _ hm)
    simp only [List.cons_append, splitOnChar, if_neg hc, List.append_eq, ih hk]

/-- Joining dot-split segments with dots reconstructs the original list. -/
theorem joinDots_splitOnChar (l : List Char) : joinDots (splitOnChar '.' l) = l := by
  induction l with
  | nil => rfl
  | cons c rest ih =>
    by_cases h : c = '.'
    · subst h
      simp only [splitOnChar, if_pos rfl]
      cases hs : splitOnChar '.' rest with
      | nil => exact absurd hs (splitOnChar_ne_nil _ _)
      | cons g gs =>
        rw [hs] at ih
        simpa [joinDots] using ih
    · simp only [splitOnChar, if_neg h]
      cases hs : splitOnChar '.' rest with
      | nil => exact absurd hs (splitOnChar_ne_nil _ _)
      | cons g gs =>
        rw [hs] at ih
        cases gs with
        | nil => simpa [joinDots] using ih
        | cons g2 gs2 =>
          simp only [joinDots, List.cons_append] at ih ⊢
          rw [ih]

/-- The provider-inherited splitter meets the claim on dot-free inputs: the
whole string is the key and the remainder path is empty. -/
theorem joshProvider_getKeyAndPath_no_dot (l : List Char) (h : '.' ∉ l) :
    JoshProvider.getKeyAndPath (String.mk l) = (String.mk l, "") := by
  unfold JoshProvider.getKeyAndPath
  rw [show (String.mk l).toList = l from rfl, splitOnChar_of_not_mem h]
  rfl

/-- The provider-inherited splitter meets the claim on inputs with a dot:
the dot-free part before the first dot is the key and everything after it,
verbatim, is the remainder path. -/
theorem joshProvider_getKeyAndPath_split (k r : List Char) (h : '.' ∉ k) :
    JoshProvider.getKeyAndPath (String.mk (k ++ '.' :: r)) = (String.mk k, String.mk r) := by
  unfold JoshProvider.getKeyAndPath
  rw [show (String.mk (k ++ '.' :: r)).toList = k ++ '.' :: r from rfl,
    splitOnChar_append r h]
  simp [joinDots_splitOnChar]

/-- C3 (code evaluated at the failing input): on the non-empty input
`"a.b.c"`, the store handle's own splitter `Josh.getKeyAndPath` raises
`KeyOrPath is null.` (inverted guard), while the provider-inherited splitter
returns the claimed split `("a", "b.c")`. -/
theorem josh_splitter_throws_where_provider_splitter_splits :
    Josh.getKeyAndPath "a.b.c" = Except.error "KeyOrPath is null." ∧
    JoshProvider.getKeyAndPath "a.b.c" = ("a", "b.c") := ⟨rfl, rfl⟩

/-! ### Claim C4 -/

/-- C4 (code evaluated at the failing input): the reference in-memory
provider class conforms to the Provider Contract by ancestry
(`MapProvider extends JoshProvider`), yet `Josh` construction with it and a
non-empty name fails: the constructor compares `constructor.name` — which is
`"MapProvider"` for a `MapProvider` instance — against the literal
`'JoshProvider'`. -/
theorem josh_construct_rejects_conforming_mapProvider :
    conformsToProviderContract MapProviderClass = true ∧
    Josh.construct { provider := some MapProviderClass, name := "test" } =
      Except.error "JoshProvider ivalid. MapProvider is not a valid provider." :=
  ⟨rfl, rfl⟩

/-! ### Claim C5 -/

/-- C5 (code evaluated at the failing inputs): `push` with
`allowDupes = true` never appends — it leaves every state unchanged for
every key, path and value, because the source guard requires `!allowDupes`.
The claim says the append is skipped only when `allowDupes` is false and a
duplicate exists. -/
theorem mapProvider_push_allowDupes_true_never_appends (st : MapProviderState)
    (key path : String) (value : JSValue) :
    MapProvider.push st key path value true = st := by
  unfold MapProvider.push
  cases h : MapProvider.get st key path <;> simp

/-! ### Claim C6 -/

/-- C6 (code evaluated at the failing input): `remove` with a predicate
keeps exactly the elements the predicate matches instead of removing them —
removing the elements equal to `2` from `[1, 2, 3]` by predicate yields
`[2]` — while the literal-value branch behaves as claimed (removing `4` from
`[1, 2, 3, 4, 5, 6]` yields `[1, 2, 3, 5, 6]`). -/
theorem mapProvider_remove_predicate_branch_inverted :
    MapProvider.get
      (MapProvider.remove
        { cache := [("arr", JSValue.varr [JSValue.vnum 1, JSValue.vnum 2, JSValue.vnum 3])],
          ids := 0 }
        "arr" "" (MapProvider.ValueOrFn.fn (fun v => jsStrictEq v (JSValue.vnum 2))))
      "arr" "" = JSValue.varr [JSValue.vnum 2] ∧
    MapProvider.get
      (MapProvider.remove
        { cache := [("arr", JSValue.varr [JSValue.vnum 1, JSValue.vnum 2, JSValue.vnum 3,
          JSValue.vnum 4, JSValue.vnum 5, JSValue.vnum 6])], ids := 0 }
        "arr" "" (MapProvider.ValueOrFn.value (JSValue.vnum 4)))
      "arr" "" = JSValue.varr [JSValue.vnum 1, JSValue.vnum 2, JSValue.vnum 3,
        JSValue.vnum 5, JSValue.vnum 6] := ⟨rfl, rfl⟩

/-! ### Claim C7 -/

/-- C7 (code evaluated at the failing inputs): `math` on a stored numeric
`0` raises (`if (!value) throw` — truthiness, not a presence check), while
`math` on a stored truthy non-numeric value (`"abc"`) does not raise. The
claim says the error fires exactly when no numeric value is present, so both
directions fail. -/
theorem mapProvider_math_error_guard_is_truthiness :
    (MapProvider.math (fun _ _ => 0) 0
      { cache := [("n", JSValue.vnum 0)], ids := 0 } "n" "" "add" 1).isOk = false ∧
    (MapProvider.math (fun _ _ => 0) 0
      { cache := [("s", JSValue.vstr "abc")], ids := 0 } "s" "" "add" 1).isOk = true :=
  ⟨rfl, rfl⟩

/-! ### Claim C10 -/

/-- C10: every provider method name the store handle's `find`, `filter`,
`map`, `some` and `every` dispatch to (`findByFunction`, `filterByFunction`,
`mapByFunction`, `someByFunction`, `everyByFunction`) is absent from the
reference provider, so the dispatch resolves to no method (`undefined` — the
call cannot complete), while the provider does implement the same operations
under the `...ByFn` names. -/
theorem josh_query_dispatch_names_unimplemented :
    (List.all joshQueryDispatchNames
      (fun n => (resolveMethod mapProviderMethodNames n).isNone)) = true ∧
    (List.all mapProviderQueryNames
      (fun n => (resolveMethod mapProviderMethodNames n).isSome)) = true := by
  decide

/-! ### Claim C8 -/

/-- Core's fuelled digit emitter agrees with the fuel-free `decDigits` when
the fuel exceeds the number. -/
theorem toDigitsCore_eq_decDigits (fuel : Nat) : ∀ (n : Nat) (acc : List Char), n < fuel →
    Nat.toDigitsCore 10 fuel n acc = decDigits n ++ acc := by
  induction fuel with
  | zero => omega
  | succ f ih =>
    intro n acc h
    rw [Nat.toDigitsCore]
    by_cases h0 : n / 10 = 0
    · have hn : n < 10 := by
        by_contra hc
        push_neg at hc
        have h1 : 1 ≤ n / 10 := (Nat.one_le_div_iff (by omega)).mpr hc
        omega
      simp only [h0, if_pos]
      rw [decDigits]
      simp [dif_pos hn, Nat.mod_eq_of_lt hn]
    · have hge : 10 ≤ n := by
        by_contra hc
        push_neg at hc
        exact h0 (Nat.div_eq_of_lt hc)
      have hlt : n / 10 < f := by
        have h1 : n / 10 < n := Nat.div_lt_self (by omega) (by omega)
        omega
      simp only [h0, if_neg]
      rw [ih (n / 10) _ hlt]
      conv_rhs => rw [decDigits]
      simp [dif_neg (by omega : ¬n < 10)]

/-- `Nat.repr` (the model of JavaScript `Number.prototype.toString` on the
counter) produces exactly the fuel-free decimal digit string. -/
theorem repr_eq_decDigits (n : Nat) : Nat.repr n = String.mk (decDigits n) := by
  unfold Nat.repr Nat.toDigits
  rw [toDigitsCore_eq_decDigits (n + 1) n [] (Nat.lt_succ_self n)]
  simp [List.asString]

/-- Decoding inverts `Nat.digitChar` on single digits. -/
theorem decodeDigit_digitChar (d : Nat) (h : d < 10) :
    decodeDigit (Nat.digitChar d) = d := by
  interval_cases d <;> rfl

/-- Appending one digit multiplies the decoded value by ten and adds it. -/
theorem decodeDigits_append (l : List Char) (c : Char) :
    decodeDigits (l ++ [c]) = 10 * decodeDigits l + decodeDigit c := by
  unfold decodeDigits
  rw [List.foldl_append]
  rfl

/-- Decoding inverts the decimal digit representation. -/
theorem decodeDigits_decDigits (n : Nat) : decodeDigits (decDigits n) = n := by
  induction n using Nat.strong_induction_on with
  | _ n ih =>
    by_cases h : n < 10
    · rw [decDigits, dif_pos h]
      simp [decodeDigits, decodeDigit_digitChar n h]
    · rw [decDigits, dif_neg h]
      rw [decodeDigits_append, ih (n / 10) (Nat.div_lt_self (by omega) (by omega)),
        decodeDigit_digitChar (n % 10) (Nat.mod_lt n (by omega))]
      omega

/-- Distinct numbers have distinct decimal strings. -/
theorem nat_repr_injective : Function.Injective Nat.repr := by
  intro a b hab
  rw [repr_eq_decDigits, repr_eq_decDigits] at hab
  have hd := congrArg String.data hab
  have h2 := congrArg decodeDigits hd
  rwa [decodeDigits_decDigits, decodeDigits_decDigits] at h2

/-- `set` does not touch the auto-increment counter. -/
theorem mapProvider_set_ids (st : MapProviderState) (k p : String) (v : JSValue) :
    (MapProvider.set st k p v).ids = st.ids := by
  unfold MapProvider.set
  split <;> rfl

/-- `delete` does not touch the auto-increment counter. -/
theorem mapProvider_delete_ids (st : MapProviderState) (k p : String) :
    (MapProvider.delete st k p).ids = st.ids := by
  by_cases h1 : p.isEmpty
  · simp [MapProvider.delete, h1]
  · by_cases h2 : (truthy (MapProvider.get st k "") && isPlainObject (MapProvider.get st k "")) = true
    · simp [MapProvider.delete, h1, h2]
    · simp [MapProvider.delete, h1, h2]

/-- `push` does not touch the auto-increment counter. -/
theorem mapProvider_push_ids (st : MapProviderState) (k p : String) (v : JSValue)
    (d : Bool) : (MapProvider.push st k p v d).ids = st.ids := by
  unfold MapProvider.push
  split
  · split
    · simp [mapProvider_set_ids]
    · rfl
  · rfl

/-- `clear` does not touch the auto-increment counter. -/
theorem mapProvider_clear_ids (st : MapProviderState) :
    (MapProvider.clear st).ids = st.ids := rfl

/-- `destroy` does not touch the auto-increment counter. -/
theorem mapProvider_destroy_ids (st : MapProviderState) :
    (MapProvider.destroy st).ids = st.ids := rfl

/-- `remove` does not touch the auto-increment counter. -/
theorem mapProvider_remove_ids (st : MapProviderState) (k p : String)
    (vf : MapProvider.ValueOrFn) : (MapProvider.remove st k p vf).ids = st.ids := by
  unfold MapProvider.remove
  cases hg : MapProvider.get st k p
  case varr elems => simp [mapProvider_set_ids]
  all_goals rfl

/-- Over any trace, the collected `autoId` outputs are the decimal strings
of the consecutive counter values starting one above the initial counter,
and the final counter equals the initial counter plus the number of
`autoId` calls — no other operation moves the counter. -/
theorem runOps_spec (ops : List ProviderOp) : ∀ st : MapProviderState,
    (runOps st ops).2 =
      (List.range (countAutoIds ops)).map (fun i => Nat.repr (st.ids + i + 1)) ∧
    (runOps st ops).1.ids = st.ids + countAutoIds ops := by
  induction ops with
  | nil => intro st; simp [runOps, countAutoIds]
  | cons op rest ih =>
    intro st
    cases op with
    | opAutoId =>
      have h2 := ih { st with ids := st.ids + 1 }
      have hred : ({ st with ids := st.ids + 1 } : MapProviderState).ids = st.ids + 1 := rfl
      rw [hred] at h2
      have hc : countAutoIds (ProviderOp.opAutoId :: rest) = countAutoIds rest + 1 := by
        simp [countAutoIds, List.countP_cons]
      refine ⟨?_, ?_⟩
      · simp only [runOps, stepOp, MapProvider.autoId]
        rw [h2.1, hc, List.range_succ_eq_map, List.map_cons, List.map_map]
        congr 1
        apply List.map_congr_left
        intro i _
        simp only [Function.comp_apply]
        congr 1
        omega
      · simp only [runOps, stepOp, MapProvider.autoId]
        rw [h2.2, hc]
        omega
    | opSet k p v =>
      have h2 := ih (MapProvider.set st k p v)
      have hc : countAutoIds (ProviderOp.opSet k p v :: rest) = countAutoIds rest := by
        simp [countAutoIds, List.countP_cons]
      exact ⟨by simp only [runOps, stepOp]; rw [h2.1, mapProvider_set_ids, hc],
        by simp only [runOps, stepOp]; rw [h2.2, mapProvider_set_ids, hc]⟩
    | opDelete k p =>
      have h2 := ih (MapProvider.delete st k p)
      have hc : countAutoIds (ProviderOp.opDelete k p :: rest) = countAutoIds rest := by
        simp [countAutoIds, List.countP_cons]
      exact ⟨by simp only [runOps, stepOp]; rw [h2.1, mapProvider_delete_ids, hc],
        by simp only [runOps, stepOp]; rw [h2.2, mapProvider_delete_ids, hc]⟩
    | opClear =>
      have h2 := ih (MapProvider.clear st)
      have hc : countAutoIds (ProviderOp.opClear :: rest) = countAutoIds rest := by
        simp [countAutoIds, List.countP_cons]
      exact ⟨by simp only [runOps, stepOp]; rw [h2.1, mapProvider_clear_ids, hc],
        by simp only [runOps, stepOp]; rw [h2.2, mapProvider_clear_ids, hc]⟩
    | opPush k p v d =>
      have h2 := ih (MapProvider.push st k p v d)
      have hc : countAutoIds (ProviderOp.opPush k p v d :: rest) = countAutoIds rest := by
        simp [countAutoIds, List.countP_cons]
      exact ⟨by simp only [runOps, stepOp]; rw [h2.1, mapProvider_push_ids, hc],
        by simp only [runOps, stepOp]; rw [h2.2, mapProvider_push_ids, hc]⟩
    | opRemove k p vf =>
      have h2 := ih (MapProvider.remove st k p vf)
      have hc : countAutoIds (ProviderOp.opRemove k p vf :: rest) = countAutoIds rest := by
        simp [countAutoIds, List.countP_cons]
      exact ⟨by simp only [runOps, stepOp]; rw [h2.1, mapProvider_remove_ids, hc],
        by simp only [runOps, stepOp]; rw [h2.2, mapProvider_remove_ids, hc]⟩
    | opDestroy =>
      have h2 := ih (MapProvider.destroy st)
      have hc : countAutoIds (ProviderOp.opDestroy :: rest) = countAutoIds rest := by
        simp [countAutoIds, List.countP_cons]
      exact ⟨by simp only [runOps, stepOp]; rw [h2.1, mapProvider_destroy_ids, hc],
        by simp only [runOps, stepOp]; rw [h2.2, mapProvider_destroy_ids, hc]⟩

/-- C8: over the lifetime of one provider instance — any trace of `autoId`
calls interleaved with writes, deletes, clears, pushes, removes and
destroys, run from the freshly constructed state — the `autoId` outputs are
exactly the sequence `"1", "2", ..., "N"` (for `N` calls), `"0"` never
occurs, and no identifier ever repeats. -/
theorem mapProvider_autoId_strict_sequence (ops : List ProviderOp) :
    (runOps MapProviderState.initial ops).2 =
      (List.range (countAutoIds ops)).map (fun i => Nat.repr (i + 1)) ∧
    "0" ∉ (runOps MapProviderState.initial ops).2 ∧
    ((runOps MapProviderState.initial ops).2).Nodup := by
  have h := runOps_spec ops MapProviderState.initial
  have hz : MapProviderState.initial.ids = 0 := rfl
  have hmain : (runOps MapProviderState.initial ops).2 =
      (List.range (countAutoIds ops)).map (fun i => Nat.repr (i + 1)) := by
    rw [h.1]
    congr 1
    funext i
    congr 1
    rw [hz]
    omega
  refine ⟨hmain, ?_, ?_⟩
  · rw [hmain]
    intro hmem
    obtain ⟨i, _, heq⟩ := List.mem_map.mp hmem
    have h0 : (Nat.repr 0 : String) = "0" := rfl
    have := nat_repr_injective (heq.trans h0.symm)
    omega
  · rw [hmain]
    refine List.Nodup.map ?_ (List.nodup_range _)
    intro a b hab
    have := nat_repr_injective hab
    omega

/-! ### Claim C9 -/

/-- The `findByValue` scan loop is `List.find?` with the loop-body match
predicate (truthiness guard plus strict equality). -/
theorem findByValueGo_eq_find (st : MapProviderState) (path : String) (value : JSValue) :
    ∀ entries : List (String × JSValue),
      MapProvider.findByValueGo st path value entries =
        entries.find? (entryMatchesByValue st path value) := by
  intro entries
  induction entries with
  | nil => rfl
  | cons e rest ih =>
    obtain ⟨k, v⟩ := e
    cases ht : truthy (MapProvider.get st k path) <;>
      cases he : jsStrictEq (MapProvider.get st k path) value <;>
        simp [MapProvider.findByValueGo, entryMatchesByValue, List.find?, ht, he, ih]

/-- The `findByFn` scan loop with a non-empty path is `List.find?` with the
loop-body match predicate (truthiness guard plus predicate). -/
theorem findByFnGo_eq_find (st : MapProviderState) (p : JSValue → Bool) (pa : String)
    (hpa : pa.isEmpty = false) :
    ∀ entries : List (String × JSValue),
      MapProvider.findByFnGo st p (some pa) entries =
        entries.find? (entryMatchesByFn st p pa) := by
  intro entries
  induction entries with
  | nil => rfl
  | cons e rest ih =>
    obtain ⟨k, v⟩ := e
    cases ht : truthy (MapProvider.get st k pa) <;>
      cases hp : p (MapProvider.get st k pa) <;>
        simp [MapProvider.findByFnGo, entryMatchesByFn, List.find?, hpa, ht, hp, ih]

/-- C9 counterexample: in the entry `{a: 0}` the path `"a"` resolves (to the
falsy value `0`), the sought value `0` is strictly equal to it, and the
constant-true predicate would match — yet both `findByValue` and `findByFn`
return `null`, because the `if (!v) continue` guard skips every entry whose
value at the path is falsy, not only entries where the path fails to
resolve. -/
theorem mapProvider_find_scan_skips_resolved_falsy :
    getPath (JSValue.vobj [("a", JSValue.vnum 0)]) (parsePath "a") = some (JSValue.vnum 0) ∧
    MapProvider.findByValue
      { cache := [("k", JSValue.vobj [("a", JSValue.vnum 0)])], ids := 0 }
      "a" (JSValue.vnum 0) = none ∧
    MapProvider.findByFn
      { cache := [("k", JSValue.vobj [("a", JSValue.vnum 0)])], ids := 0 }
      (fun _ => true) (some "a") = none := ⟨rfl, rfl, rfl⟩

/-- C9 amended: the find scans skip an entry exactly when the value at the
path is absent or falsy; over the remaining entries the first one whose
truthy value-at-path satisfies the comparison (or predicate) is returned, in
iteration order, and the scan yields `null` exactly when no entry passes. -/
theorem mapProvider_find_scans_skip_falsy_spec (st : MapProviderState) (path : String)
    (value : JSValue) (p : JSValue → Bool) (pa : String) (hpa : pa ≠ "") :
    MapProvider.findByValue st path value =
      st.cache.find? (entryMatchesByValue st path value) ∧
    MapProvider.findByFn st p (some pa) = st.cache.find? (entryMatchesByFn st p pa) ∧
    (MapProvider.findByValue st path value = none ↔
      ∀ e ∈ st.cache, entryMatchesByValue st path value e = false) := by
  have h1 := findByValueGo_eq_find st path value st.cache
  have h2 := findByFnGo_eq_find st p pa (string_isEmpty_false pa hpa) st.cache
  refine ⟨h1, h2, ?_⟩
  unfold MapProvider.findByValue
  rw [h1]
  simp [List.find?_eq_none]

/-- Witness for C9's amended theorem at a concrete two-entry store: the scan
returns the first (and only) entry whose value at `"b"` is truthy and equals
`2`. -/
theorem mapProvider_find_scans_skip_falsy_spec_witness :
    MapProvider.findByValue
      { cache := [("k1", JSValue.vobj [("b", JSValue.vnum 1)]),
                  ("k2", JSValue.vobj [("b", JSValue.vnum 2)])], ids := 0 }
      "b" (JSValue.vnum 2) = some ("k2", JSValue.vobj [("b", JSValue.vnum 2)]) := by
  have h := (mapProvider_find_scans_skip_falsy_spec
    { cache := [("k1", JSValue.vobj [("b", JSValue.vnum 1)]),
                ("k2", JSValue.vobj [("b", JSValue.vnum 2)])], ids := 0 }
    "b" (JSValue.vnum 2) (fun v => truthy v) "b" (by decide)).1
  rw [h]
  rfl
